import Mathlib

/-!
Shallow embedding of the dynasty-football-draft-lottery core
(src/lib/lottery.ts, re-exported through src/lib/database.ts) in Lean 4.

Modelling conventions:
* JS numbers holding positions, team counts, round numbers and movements are
  modelled as `Int`; the odds percentages and the uniform random draws as `ℚ`.
* `Math.random()` draws are passed in explicitly: `runLotteryRound` receives,
  for each attempt, a shuffle function (standing for the random comparator
  sort, which always yields some permutation of its input) and a stream of
  draws consumed by `weightedRandomSelection`.
* A thrown JS exception is an `Except.error`; inside the retry loop of
  `runLotteryRound` exceptions are caught, which the model renders as
  `Option` (`none` = the attempt failed and is retried).
* `config.teams[p - 1].id` on an out-of-range index throws a `TypeError`
  in JS (`undefined.id`); `teamIdAt` models that as an error.
* Only the fields of `Team` and `DraftConfig` that the lottery engine reads
  are carried (`pickDelaySeconds`, `currentYear`, logos play no role).
-/

structure Team where
  id : String
  name : String
deriving DecidableEq, Repr

structure WeightedOdds where
  position : Int
  percentage : ℚ
deriving DecidableEq, Repr

structure DraftConfig where
  numberOfTeams : Int
  numberOfRounds : Int
  teams : List Team
  weightedSystem : List WeightedOdds
deriving DecidableEq, Repr

structure DraftPick where
  round : Int
  pickNumber : Int
  teamId : String
  originalPosition : Int
  movement : Int
deriving DecidableEq, Repr

/-- Maximum number of spots a team can move up or down in the draft. -/
def MAX_MOVEMENT : Int := 2

/-- `getValidPositionRange` from the source: the closed interval
`[max(1, p - MAX_MOVEMENT), min(totalTeams, p + MAX_MOVEMENT)]`. -/
def getValidPositionRange (originalPosition totalTeams : Int) : Int × Int :=
  (max 1 (originalPosition - MAX_MOVEMENT), min totalTeams (originalPosition + MAX_MOVEMENT))

/-- The positions `1, 2, ..., n` (empty when `n ≤ 0`), as produced by
`Array.from({length: n}, (_, i) => i + 1)`. -/
def positionsList (n : Int) : List Int :=
  (List.range n.toNat).map (fun (i : ℕ) => (i : Int) + 1)

/-- The filter inside `weightedRandomSelection`: available positions lying in
the valid range computed with `weightedSystem.length` as the team count. -/
def admissibleCandidates (availablePositions : List Int)
    (weightedSystem : List WeightedOdds) (originalPosition : Int) : List Int :=
  let validRange := getValidPositionRange originalPosition (weightedSystem.length : Int)
  availablePositions.filter (fun pos => decide (validRange.1 ≤ pos ∧ pos ≤ validRange.2))

/-- The raw weight of a candidate position in `weightedRandomSelection`:
the base percentage, multiplied by `1 + movement * 0.2` when moving up
(`movement = originalPosition - pos > 0`) and by `1 - |movement| * 0.2`
when moving down. -/
def adjustedWeight (percentage : ℚ) (originalPosition pos : Int) : ℚ :=
  let movement := originalPosition - pos
  if movement > 0 then percentage * (1 + (movement : ℚ) * 0.2)
  else if movement < 0 then percentage * (1 - ((movement.natAbs : ℚ)) * 0.2)
  else percentage

/-- The cumulative walk of `weightedRandomSelection`: return the first listed
position whose cumulative probability is `≥ draw` (`random <= cumulative` in
the source), or the fallback when the walk completes unsatisfied. -/
def walkFrom : List (Int × ℚ) → ℚ → ℚ → Int → Int
  | [], _, _, fallback => fallback
  | p :: rest, draw, cumulative, fallback =>
    if draw ≤ cumulative + p.2 then p.1 else walkFrom rest draw (cumulative + p.2) fallback

/-- The random branch of `weightedRandomSelection`: weight each candidate,
normalize by the total weight, walk the distribution against the draw, with
the first candidate (`validPositions[0]`) as fallback. -/
def weightedPick (candidates : List Int) (percentage : ℚ) (originalPosition : Int)
    (draw : ℚ) : Int :=
  let probabilities := candidates.map (fun pos => (pos, adjustedWeight percentage originalPosition pos))
  let totalWeight := probabilities.foldl (fun sum p => sum + p.2) 0
  let normalizedProbs := probabilities.map (fun p => (p.1, p.2 / totalWeight))
  walkFrom normalizedProbs draw 0 (candidates.headD 0)

/-- `weightedRandomSelection` from the source. The uniform draw from
`Math.random()` is the explicit argument `draw`; it is only consulted when
two or more candidates remain. -/
def weightedRandomSelection (availablePositions : List Int)
    (weightedSystem : List WeightedOdds) (originalPosition : Int)
    (draw : ℚ) : Except String Int :=
  match admissibleCandidates availablePositions weightedSystem originalPosition with
  | [] => .error ("No valid positions available for team at original position "
      ++ toString originalPosition)
  | [x] => .ok x
  | x :: y :: rest =>
    match weightedSystem.find? (fun odds => odds.position == originalPosition) with
    | none => .error ("No weighted odds found for position " ++ toString originalPosition)
    | some teamOdds => .ok (weightedPick (x :: y :: rest) teamOdds.percentage originalPosition draw)

/-- `validateDraftResults` from the source: one error message per pick whose
`|movement|` exceeds `MAX_MOVEMENT`, plus the overall validity flag. -/
def validateDraftResults (picks : List DraftPick) : Bool × List String :=
  let errors := picks.filterMap (fun pick =>
    if MAX_MOVEMENT < |pick.movement| then
      some ("Team at original position " ++ toString pick.originalPosition ++ " moved "
        ++ toString |pick.movement| ++ " spots (max allowed: " ++ toString MAX_MOVEMENT ++ ")")
    else none)
  (errors.isEmpty, errors)

/-- One entry of the `teams` list built inside `runLotteryRound`. -/
structure TeamEntry where
  originalPosition : Int
  teamId : String
deriving DecidableEq, Repr

/-- `config.teams[originalPosition - 1].id`: a JS `TypeError` escapes when the
index is out of range, since `undefined.id` throws. -/
def teamIdAt (teams : List Team) (originalPosition : Int) : Except String String :=
  if originalPosition < 1 then
    .error "TypeError: Cannot read properties of undefined (reading id)"
  else
    match teams.get? (originalPosition - 1).toNat with
    | some t => .ok t.id
    | none => .error "TypeError: Cannot read properties of undefined (reading id)"

/-- The `initialOrder.map(...)` building the team list in `runLotteryRound`. -/
def buildTeams (teams : List Team) : List Int → Except String (List TeamEntry)
  | [] => .ok []
  | op :: rest =>
    match teamIdAt teams op with
    | .error e => .error e
    | .ok tid =>
      match buildTeams teams rest with
      | .error e => .error e
      | .ok entries => .ok ({ originalPosition := op, teamId := tid } :: entries)

/-- The key order used by `picks.sort((a, b) => a.pickNumber - b.pickNumber)`. -/
def pickLE (a b : DraftPick) : Prop := a.pickNumber ≤ b.pickNumber

instance : DecidableRel pickLE :=
  fun a b => inferInstanceAs (Decidable (a.pickNumber ≤ b.pickNumber))

instance : IsTotal DraftPick pickLE :=
  ⟨fun a b => Int.le_total a.pickNumber b.pickNumber⟩

instance : IsTrans DraftPick pickLE :=
  ⟨fun _ _ _ hab hbc => le_trans hab hbc⟩

/-- `picks.sort((a, b) => a.pickNumber - b.pickNumber)`: a stable sort by
`pickNumber`, modelled with insertion sort. -/
def sortByPickNumber (picks : List DraftPick) : List DraftPick :=
  picks.insertionSort pickLE

/-- The `for (const team of shuffledTeams)` body of `runLotteryRound`:
process the teams one at a time, accumulating assigned positions; `none`
models any caught exception (empty valid set, or a throw from
`weightedRandomSelection`), which aborts the attempt. `draws drawIdx` is the
`Math.random()` value a `weightedRandomSelection` call would consume. -/
def processTeams (config : DraftConfig) (roundNumber : Int) (draws : Nat → ℚ) :
    List TeamEntry → List Int → Nat → Option (List DraftPick)
  | [], _, _ => some []
  | team :: rest, assigned, drawIdx =>
    let availablePositions :=
      (positionsList config.numberOfTeams).filter (fun pos => decide (pos ∉ assigned))
    let validRange := getValidPositionRange team.originalPosition config.numberOfTeams
    let validPositions :=
      availablePositions.filter (fun pos => decide (validRange.1 ≤ pos ∧ pos ≤ validRange.2))
    if validPositions.isEmpty then none
    else
      match weightedRandomSelection availablePositions config.weightedSystem
          team.originalPosition (draws drawIdx) with
      | .error _ => none
      | .ok selectedPosition =>
        match processTeams config roundNumber draws rest (selectedPosition :: assigned)
            (drawIdx + 1) with
        | none => none
        | some picks =>
          some ({ round := roundNumber, pickNumber := selectedPosition,
                  teamId := team.teamId, originalPosition := team.originalPosition,
                  movement := selectedPosition - team.originalPosition } :: picks)

/-- One attempt of the `while` loop in `runLotteryRound`: build the team
list, shuffle it, assign every team, and keep the result only when the
defensive `|movement| ≤ MAX_MOVEMENT` re-check passes; any failure becomes
`none` (the loop continues with the next attempt). -/
def attemptRound (config : DraftConfig) (roundNumber : Int) (initialOrder : List Int)
    (shuffle : List TeamEntry → List TeamEntry) (draws : Nat → ℚ) :
    Option (List DraftPick) :=
  match buildTeams config.teams initialOrder with
  | .error _ => none
  | .ok teams =>
    match processTeams config roundNumber draws (shuffle teams) [] 0 with
    | none => none
    | some picks =>
      if picks.all (fun pick => decide (|pick.movement| ≤ MAX_MOVEMENT)) then
        some (sortByPickNumber picks)
      else none

/-- The attempt loop: run attempts `attempt, attempt+1, ...` while fuel
remains, returning the first success. -/
def tryAttempts (config : DraftConfig) (roundNumber : Int) (initialOrder : List Int)
    (shuffles : Nat → List TeamEntry → List TeamEntry) (draws : Nat → Nat → ℚ) :
    Nat → Nat → Option (List DraftPick)
  | _, 0 => none
  | attempt, fuel + 1 =>
    match attemptRound config roundNumber initialOrder (shuffles attempt) (draws attempt) with
    | some picks => some picks
    | none => tryAttempts config roundNumber initialOrder shuffles draws (attempt + 1) fuel

/-- The raw no-movement picks of the fallback path of `runLotteryRound`
(the team lookup sits outside every `try`, so its `TypeError` escapes). -/
def fallbackPicksRaw (teams : List Team) (roundNumber : Int) :
    List Int → Except String (List DraftPick)
  | [] => .ok []
  | op :: rest =>
    match teamIdAt teams op with
    | .error e => .error e
    | .ok tid =>
      match fallbackPicksRaw teams roundNumber rest with
      | .error e => .error e
      | .ok picks =>
        .ok ({ round := roundNumber, pickNumber := op, teamId := tid,
               originalPosition := op, movement := 0 } :: picks)

/-- `MAX_ATTEMPTS` from the source. -/
def MAX_ATTEMPTS : Nat := 1000

/-- `runLotteryRound` from the source: up to `MAX_ATTEMPTS` randomized
attempts, then the sorted identity (no-movement) fallback. `shuffles i` is
the random permutation the comparator sort produces at attempt `i`, and
`draws i j` the `j`-th uniform draw of attempt `i`. -/
def runLotteryRound (config : DraftConfig) (roundNumber : Int) (initialOrder : List Int)
    (shuffles : Nat → List TeamEntry → List TeamEntry) (draws : Nat → Nat → ℚ) :
    Except String (List DraftPick) :=
  match tryAttempts config roundNumber initialOrder shuffles draws 0 MAX_ATTEMPTS with
  | some picks => .ok picks
  | none =>
    match fallbackPicksRaw config.teams roundNumber initialOrder with
    | .error e => .error e
    | .ok picks => .ok (sortByPickNumber picks)

/-- The `for (let round = 1; ...)` loop of `runCompleteLottery`: run each
round, re-validate it, and concatenate. -/
def runRounds (config : DraftConfig) (initialOrder : List Int)
    (shuffles : Int → Nat → List TeamEntry → List TeamEntry)
    (draws : Int → Nat → Nat → ℚ) : Int → Nat → Except String (List DraftPick)
  | _, 0 => .ok []
  | round, fuel + 1 =>
    match runLotteryRound config round initialOrder (shuffles round) (draws round) with
    | .error e => .error e
    | .ok roundPicks =>
      if (validateDraftResults roundPicks).1 then
        match runRounds config initialOrder shuffles draws (round + 1) fuel with
        | .error e => .error e
        | .ok rest => .ok (roundPicks ++ rest)
      else
        .error ("Invalid lottery results for round " ++ toString round ++ ": "
          ++ String.intercalate ", " (validateDraftResults roundPicks).2)

/-- `runCompleteLottery` from the source: reject a length mismatch with a
descriptive message, then run rounds `1..numberOfRounds`. -/
def runCompleteLottery (config : DraftConfig) (initialOrder : List Int)
    (shuffles : Int → Nat → List TeamEntry → List TeamEntry)
    (draws : Int → Nat → Nat → ℚ) : Except String (List DraftPick) :=
  if (initialOrder.length : Int) ≠ config.numberOfTeams then
    .error ("Initial order length (" ++ toString initialOrder.length
      ++ ") must match number of teams (" ++ toString config.numberOfTeams ++ ")")
  else
    runRounds config initialOrder shuffles draws 1 config.numberOfRounds.toNat

/-- Well-formedness of a configuration, as assumed by the spec: at least one
team, a team entry for every position `1..N`, and exactly one odds entry per
position `1..N`. -/
def WellFormedConfig (config : DraftConfig) : Prop :=
  1 ≤ config.numberOfTeams ∧
  config.numberOfTeams ≤ (config.teams.length : Int) ∧
  ∀ p ∈ positionsList config.numberOfTeams,
    (config.weightedSystem.filter (fun o => o.position == p)).length = 1

instance (config : DraftConfig) : Decidable (WellFormedConfig config) := by
  unfold WellFormedConfig; infer_instance

/-! ### Definitions used only to state claims, and concrete fixtures -/

/-- The round labels of a lottery run: `len` copies of `round`, then `len`
copies of `round + 1`, and so on for `n` rounds. -/
def roundLabels (len : Nat) : Int → Nat → List Int
  | _, 0 => []
  | round, n + 1 => List.replicate len round ++ roundLabels len (round + 1) n
/-- `sub` occurs as a substring of `s`. -/
def strContains (s sub : String) : Prop := ∃ p q, s = p ++ sub ++ q
/-- The claim's weight formula, written as the spec states it: base
percentage times `1 + 0.2⋅(op − c)` for an upward move (`c < op`) and times
`1 − 0.2⋅(c − op)` for a downward move (`c > op`). -/
def specRawWeight (basePct : ℚ) (op c : Int) : ℚ :=
  if c < op then basePct * (1 + 0.2 * ((op - c : Int) : ℚ))
  else if op < c then basePct * (1 - 0.2 * ((c - op : Int) : ℚ))
  else basePct
/-- The claim's selection rule, written as the spec states it: normalize the
weights by their total, walk the candidates in enumeration order, and return
the first whose cumulative normalized weight is `≥ draw`, with the first
candidate as fallback. -/
def specSelect (candidates : List Int) (basePct : ℚ) (op : Int) (draw : ℚ) : Int :=
  let total := (candidates.map (fun c => specRawWeight basePct op c)).sum
  match (List.range candidates.length).find? (fun i =>
      decide (draw ≤ ((candidates.take (i + 1)).map
        (fun c => specRawWeight basePct op c / total)).sum)) with
  | some i => candidates.getD i 0
  | none => candidates.headD 0
def oneTeamConfig : DraftConfig :=
  { numberOfTeams := 1, numberOfRounds := 2,
    teams := [⟨"t1", "Team One"⟩], weightedSystem := [⟨1, 25⟩] }

def noOddsConfig : DraftConfig :=
  { numberOfTeams := 1, numberOfRounds := 1,
    teams := [⟨"t1", "Team One"⟩], weightedSystem := [] }

def idShuffles : Nat → List TeamEntry → List TeamEntry := fun _ l => l

def idShufflesAll : Int → Nat → List TeamEntry → List TeamEntry := fun _ _ l => l

def zeroDraws : Nat → Nat → ℚ := fun _ _ => 0

def zeroDrawsAll : Int → Nat → Nat → ℚ := fun _ _ _ => 0
def sixOdds : List WeightedOdds :=
  [⟨1, 1⟩, ⟨2, 1⟩, ⟨3, 1⟩, ⟨4, 10⟩, ⟨5, 1⟩, ⟨6, 1⟩]

def threeOdds : List WeightedOdds := [⟨1, 10⟩, ⟨2, 10⟩, ⟨3, 10⟩]

/-! ### Basic facts about `positionsList` -/

theorem mem_positionsList {x n : Int} : x ∈ positionsList n ↔ 1 ≤ x ∧ x ≤ n := by
  unfold positionsList
  rw [List.mem_map]
  constructor
  · rintro ⟨i, hi, rfl⟩
    rw [List.mem_range] at hi
    omega
  · rintro ⟨h1, h2⟩
    refine ⟨(x - 1).toNat, ?_, ?_⟩
    · rw [List.mem_range]; omega
    · omega

theorem nodup_positionsList (n : Int) : (positionsList n).Nodup := by
  unfold positionsList
  refine List.Nodup.map (fun a b h => ?_) (List.nodup_range n.toNat)
  omega

theorem pairwise_le_positionsList (n : Int) : (positionsList n).Pairwise (· ≤ ·) := by
  unfold positionsList
  refine List.Pairwise.map _ (fun {a b} h => ?_) (List.pairwise_lt_range n.toNat)
  omega

theorem length_positionsList (n : Int) : (positionsList n).length = n.toNat := by
  rw [positionsList, List.length_map, List.length_range]

/-! ### Membership facts about the weighted selection -/

theorem mem_admissibleCandidates {x : Int} {a : List Int} {ws : List WeightedOdds}
    {op : Int} (h : x ∈ admissibleCandidates a ws op) :
    x ∈ a ∧ max 1 (op - 2) ≤ x ∧ x ≤ min (ws.length : Int) (op + 2) := by
  simp only [admissibleCandidates, getValidPositionRange, MAX_MOVEMENT, List.mem_filter,
    decide_eq_true_eq] at h
  exact ⟨h.1, h.2.1, h.2.2⟩

theorem walkFrom_mem (probs : List (Int × ℚ)) (draw acc : ℚ) (fb : Int) :
    walkFrom probs draw acc fb = fb ∨ walkFrom probs draw acc fb ∈ probs.map Prod.fst := by
  induction probs generalizing acc with
  | nil => left; rfl
  | cons p rest ih =>
    simp only [walkFrom, List.map_cons, List.mem_cons]
    by_cases h : draw ≤ acc + p.2
    · simp [h]
    · simp only [if_neg h]
      rcases ih (acc + p.2) with h' | h'
      · left; exact h'
      · right; right; exact h'

theorem weightedPick_mem (candidates : List Int) (pct : ℚ) (op : Int) (draw : ℚ)
    (hne : candidates ≠ []) :
    weightedPick candidates pct op draw ∈ candidates := by
  unfold weightedPick
  rcases walkFrom_mem ((candidates.map (fun pos => (pos, adjustedWeight pct op pos))).map
      (fun p => (p.1, p.2 / (candidates.map (fun pos => (pos, adjustedWeight pct op pos))).foldl
        (fun sum p => sum + p.2) 0))) draw 0 (candidates.headD 0) with h | h
  · rw [h]
    cases candidates with
    | nil => exact absurd rfl hne
    | cons c rest => exact List.mem_cons_self c rest
  · simp only [List.map_map] at h
    have hid : ((fun p : Int × ℚ => p.1) ∘
        ((fun p : Int × ℚ => (p.1, p.2 / (candidates.map (fun pos => (pos, adjustedWeight pct op pos))).foldl
          (fun sum p => sum + p.2) 0)) ∘ (fun pos => (pos, adjustedWeight pct op pos)))) =
        fun pos : Int => pos := rfl
    rw [hid] at h
    simpa using h

theorem weightedRandomSelection_ok_mem {a : List Int} {ws : List WeightedOdds}
    {op : Int} {d : ℚ} {x : Int}
    (h : weightedRandomSelection a ws op d = .ok x) :
    x ∈ admissibleCandidates a ws op := by
  unfold weightedRandomSelection at h
  cases hc : admissibleCandidates a ws op with
  | nil => rw [hc] at h; exact absurd h (by simp)
  | cons hd tl =>
    cases tl with
    | nil =>
      rw [hc] at h
      simp only [Except.ok.injEq] at h
      subst h
      exact List.mem_cons_self hd []
    | cons y rest =>
      rw [hc] at h
      cases hf : ws.find? (fun odds => odds.position == op) with
      | none => rw [hf] at h; exact absurd h (by simp)
      | some teamOdds =>
        rw [hf] at h
        simp only [Except.ok.injEq] at h
        subst h
        exact weightedPick_mem _ _ _ _ (by simp)

/-! ### Sorting facts -/

theorem sortByPickNumber_perm (l : List DraftPick) : (sortByPickNumber l).Perm l :=
  List.perm_insertionSort pickLE l

theorem sortByPickNumber_sorted (l : List DraftPick) :
    (sortByPickNumber l).Sorted pickLE :=
  List.sorted_insertionSort pickLE l

theorem mem_sortByPickNumber {l : List DraftPick} {p : DraftPick} :
    p ∈ sortByPickNumber l ↔ p ∈ l :=
  List.mem_insertionSort pickLE

theorem length_sortByPickNumber (l : List DraftPick) :
    (sortByPickNumber l).length = l.length :=
  List.length_insertionSort pickLE l

/-! ### Facts about `buildTeams` and `teamIdAt` -/

theorem teamIdAt_ok (teams : List Team) (op : Int) (h1 : 1 ≤ op)
    (h2 : (op - 1).toNat < teams.length) : ∃ tid, teamIdAt teams op = .ok tid := by
  unfold teamIdAt
  rw [if_neg (by omega)]
  cases hg : teams.get? (op - 1).toNat with
  | none => rw [List.get?_eq_none] at hg; omega
  | some t => exact ⟨t.id, rfl⟩

theorem buildTeams_ok_shape {teams : List Team} {order : List Int} {entries : List TeamEntry}
    (h : buildTeams teams order = .ok entries) :
    entries.map (fun e => e.originalPosition) = order := by
  induction order generalizing entries with
  | nil => simp only [buildTeams, Except.ok.injEq] at h; subst h; rfl
  | cons op rest ih =>
    simp only [buildTeams] at h
    cases ht : teamIdAt teams op with
    | error e => rw [ht] at h; exact absurd h (by simp)
    | ok tid =>
      rw [ht] at h
      cases hb : buildTeams teams rest with
      | error e => rw [hb] at h; exact absurd h (by simp)
      | ok entries' =>
        rw [hb] at h
        simp only [Except.ok.injEq] at h
        subst h
        simp [ih hb]

theorem buildTeams_total {teams : List Team} {order : List Int}
    (h : ∀ op ∈ order, 1 ≤ op ∧ (op - 1).toNat < teams.length) :
    ∃ entries, buildTeams teams order = .ok entries := by
  induction order with
  | nil => exact ⟨[], rfl⟩
  | cons op rest ih =>
    obtain ⟨h1, h2⟩ := h op (List.mem_cons_self op rest)
    obtain ⟨tid, ht⟩ := teamIdAt_ok teams op h1 h2
    obtain ⟨entries', hb⟩ := ih (fun x hx => h x (List.mem_cons_of_mem op hx))
    refine ⟨{ originalPosition := op, teamId := tid } :: entries', ?_⟩
    simp only [buildTeams, ht, hb]

/-! ### The core invariant of a single processing pass -/

theorem processTeams_ok_core {config : DraftConfig} {roundNumber : Int} {draws : Nat → ℚ} :
    ∀ {teams : List TeamEntry} {assigned : List Int} {drawIdx : Nat} {picks : List DraftPick},
    processTeams config roundNumber draws teams assigned drawIdx = some picks →
    picks.length = teams.length ∧
    (∀ p ∈ picks, p.round = roundNumber ∧ p.pickNumber ∈ positionsList config.numberOfTeams ∧
      p.pickNumber ∉ assigned) ∧
    (picks.map (fun p => p.pickNumber)).Nodup := by
  intro teams
  induction teams with
  | nil =>
    intro assigned drawIdx picks h
    simp only [processTeams, Option.some.injEq] at h
    subst h
    simp
  | cons team rest ih =>
    intro assigned drawIdx picks h
    simp only [processTeams] at h
    split at h
    · exact absurd h (by simp)
    · split at h
      · exact absurd h (by simp)
      · rename_i sel hw
        split at h
        · exact absurd h (by simp)
        · rename_i picks' hrec
          simp only [Option.some.injEq] at h
          subst h
          obtain ⟨hlen, hprops, hnodup⟩ := ih hrec
          have hsel : sel ∈ (positionsList config.numberOfTeams).filter
              (fun pos => decide (pos ∉ assigned)) :=
            (mem_admissibleCandidates (weightedRandomSelection_ok_mem hw)).1
          rw [List.mem_filter, decide_eq_true_eq] at hsel
          refine ⟨by simp [hlen], ?_, ?_⟩
          · intro p hp
            rcases List.mem_cons.mp hp with rfl | hp'
            · exact ⟨rfl, hsel.1, hsel.2⟩
            · obtain ⟨hr, hm, hna⟩ := hprops p hp'
              exact ⟨hr, hm, fun hc => hna (List.mem_cons_of_mem sel hc)⟩
          · simp only [List.map_cons, List.nodup_cons]
            refine ⟨?_, hnodup⟩
            intro hc
            rw [List.mem_map] at hc
            obtain ⟨q, hq, hqe⟩ := hc
            exact (hprops q hq).2.2 (hqe ▸ List.mem_cons_self sel assigned)

/-! ### Facts about attempts, the retry loop and the fallback -/

theorem attemptRound_ok {config : DraftConfig} {roundNumber : Int} {order : List Int}
    {shuffle : List TeamEntry → List TeamEntry} {draws : Nat → ℚ} {picks : List DraftPick}
    (h : attemptRound config roundNumber order shuffle draws = some picks) :
    ∃ teams raw, buildTeams config.teams order = .ok teams ∧
      processTeams config roundNumber draws (shuffle teams) [] 0 = some raw ∧
      raw.all (fun pick => decide (|pick.movement| ≤ MAX_MOVEMENT)) = true ∧
      picks = sortByPickNumber raw := by
  unfold attemptRound at h
  split at h
  · exact absurd h (by simp)
  · rename_i teams hb
    split at h
    · exact absurd h (by simp)
    · rename_i raw hp
      split at h
      · rename_i hall
        simp only [Option.some.injEq] at h
        exact ⟨teams, raw, hb, hp, hall, h.symm⟩
      · exact absurd h (by simp)

theorem tryAttempts_ok {config : DraftConfig} {roundNumber : Int} {order : List Int}
    {shuffles : Nat → List TeamEntry → List TeamEntry} {draws : Nat → Nat → ℚ} :
    ∀ {fuel start : Nat} {picks : List DraftPick},
    tryAttempts config roundNumber order shuffles draws start fuel = some picks →
    ∃ i, attemptRound config roundNumber order (shuffles i) (draws i) = some picks := by
  intro fuel
  induction fuel with
  | zero => intro start picks h; exact absurd h (by simp [tryAttempts])
  | succ n ih =>
    intro start picks h
    simp only [tryAttempts] at h
    cases ha : attemptRound config roundNumber order (shuffles start) (draws start) with
    | some p => rw [ha] at h; simp only [Option.some.injEq] at h; exact ⟨start, h ▸ ha⟩
    | none => rw [ha] at h; exact ih h

theorem tryAttempts_none {config : DraftConfig} {roundNumber : Int} {order : List Int}
    {shuffles : Nat → List TeamEntry → List TeamEntry} {draws : Nat → Nat → ℚ} :
    ∀ {fuel start : Nat},
    (∀ i, start ≤ i → i < start + fuel →
      attemptRound config roundNumber order (shuffles i) (draws i) = none) →
    tryAttempts config roundNumber order shuffles draws start fuel = none := by
  intro fuel
  induction fuel with
  | zero => intro start _; rfl
  | succ n ih =>
    intro start h
    simp only [tryAttempts]
    rw [h start (le_refl start) (by omega)]
    exact ih (fun i h1 h2 => h i (by omega) (by omega))

theorem fallbackPicksRaw_ok_shape {teams : List Team} {roundNumber : Int} :
    ∀ {order : List Int} {picks : List DraftPick},
    fallbackPicksRaw teams roundNumber order = .ok picks →
    picks.map (fun p => p.pickNumber) = order ∧
    picks.map (fun p => p.originalPosition) = order ∧
    ∀ p ∈ picks, p.pickNumber = p.originalPosition ∧ p.movement = 0 ∧
      p.round = roundNumber := by
  intro order
  induction order with
  | nil =>
    intro picks h
    simp only [fallbackPicksRaw, Except.ok.injEq] at h
    subst h
    simp
  | cons op rest ih =>
    intro picks h
    simp only [fallbackPicksRaw] at h
    split at h
    · exact absurd h (by simp)
    · rename_i tid ht
      split at h
      · exact absurd h (by simp)
      · rename_i picks' hrec
        simp only [Except.ok.injEq] at h
        subst h
        obtain ⟨h1, h2, h3⟩ := ih hrec
        refine ⟨by simp [h1], by simp [h2], ?_⟩
        intro p hp
        rcases List.mem_cons.mp hp with rfl | hp'
        · exact ⟨rfl, rfl, rfl⟩
        · exact h3 p hp'

theorem fallbackPicksRaw_total {teams : List Team} {roundNumber : Int} {order : List Int}
    (h : ∀ op ∈ order, 1 ≤ op ∧ (op - 1).toNat < teams.length) :
    ∃ picks, fallbackPicksRaw teams roundNumber order = .ok picks := by
  induction order with
  | nil => exact ⟨[], rfl⟩
  | cons op rest ih =>
    obtain ⟨h1, h2⟩ := h op (List.mem_cons_self op rest)
    obtain ⟨tid, ht⟩ := teamIdAt_ok teams op h1 h2
    obtain ⟨picks', hrec⟩ := ih (fun x hx => h x (List.mem_cons_of_mem op hx))
    refine ⟨{ round := roundNumber, pickNumber := op, teamId := tid,
              originalPosition := op, movement := 0 } :: picks', ?_⟩
    simp only [fallbackPicksRaw, ht, hrec]

/-! ### Facts about `runLotteryRound` -/

theorem runLotteryRound_ok_cases {config : DraftConfig} {roundNumber : Int}
    {order : List Int} {shuffles : Nat → List TeamEntry → List TeamEntry}
    {draws : Nat → Nat → ℚ} {picks : List DraftPick}
    (h : runLotteryRound config roundNumber order shuffles draws = .ok picks) :
    (∃ i, attemptRound config roundNumber order (shuffles i) (draws i) = some picks) ∨
    (∃ raw, fallbackPicksRaw config.teams roundNumber order = .ok raw ∧
      picks = sortByPickNumber raw) := by
  unfold runLotteryRound at h
  cases ht : tryAttempts config roundNumber order shuffles draws 0 MAX_ATTEMPTS with
  | some p =>
    rw [ht] at h
    simp only [Except.ok.injEq] at h
    exact Or.inl (h ▸ tryAttempts_ok ht)
  | none =>
    rw [ht] at h
    cases hf : fallbackPicksRaw config.teams roundNumber order with
    | error e => rw [hf] at h; exact absurd h (by simp)
    | ok raw =>
      rw [hf] at h
      simp only [Except.ok.injEq] at h
      exact Or.inr ⟨raw, rfl, h.symm⟩

theorem runLotteryRound_total (config : DraftConfig) (roundNumber : Int)
    (order : List Int) (shuffles : Nat → List TeamEntry → List TeamEntry)
    (draws : Nat → Nat → ℚ)
    (h : ∀ op ∈ order, 1 ≤ op ∧ (op - 1).toNat < config.teams.length) :
    ∃ picks, runLotteryRound config roundNumber order shuffles draws = .ok picks := by
  unfold runLotteryRound
  cases ht : tryAttempts config roundNumber order shuffles draws 0 MAX_ATTEMPTS with
  | some p => exact ⟨p, rfl⟩
  | none =>
    obtain ⟨raw, hf⟩ := fallbackPicksRaw_total h
    exact ⟨sortByPickNumber raw, by rw [hf]⟩

theorem runLotteryRound_movement {config : DraftConfig} {roundNumber : Int}
    {order : List Int} {shuffles : Nat → List TeamEntry → List TeamEntry}
    {draws : Nat → Nat → ℚ} {picks : List DraftPick}
    (h : runLotteryRound config roundNumber order shuffles draws = .ok picks) :
    ∀ p ∈ picks, |p.movement| ≤ MAX_MOVEMENT := by
  intro p hp
  rcases runLotteryRound_ok_cases h with ⟨i, ha⟩ | ⟨raw, hf, hs⟩
  · obtain ⟨teams, raw, _, _, hall, hsort⟩ := attemptRound_ok ha
    rw [hsort] at hp
    rw [mem_sortByPickNumber] at hp
    rw [List.all_eq_true] at hall
    exact decide_eq_true_eq.mp (hall p hp)
  · rw [hs, mem_sortByPickNumber] at hp
    rw [(fallbackPicksRaw_ok_shape hf).2.2 p hp |>.2.1]
    simp [MAX_MOVEMENT]

/-! ### A sorted duplicate-free list covering `1..n` is `1..n` -/

theorem sorted_nodup_eq_positionsList {ns : List Int} {n : Int}
    (hnd : ns.Nodup) (hsub : ∀ x ∈ ns, x ∈ positionsList n)
    (hlen : ns.length = n.toNat) (hsort : ns.Pairwise (· ≤ ·)) :
    ns = positionsList n := by
  have hndp := nodup_positionsList n
  have hsubset : ns.toFinset ⊆ (positionsList n).toFinset := by
    intro x hx
    rw [List.mem_toFinset] at hx ⊢
    exact hsub x hx
  have hcard : (positionsList n).toFinset.card ≤ ns.toFinset.card := by
    rw [List.toFinset_card_of_nodup hnd, List.toFinset_card_of_nodup hndp,
      hlen, length_positionsList]
  have hfe : ns.toFinset = (positionsList n).toFinset :=
    Finset.eq_of_subset_of_card_le hsubset hcard
  have hperm : ns.Perm (positionsList n) :=
    List.perm_of_nodup_nodup_toFinset_eq hnd hndp hfe
  exact List.eq_of_perm_of_sorted hperm hsort (pairwise_le_positionsList n)

theorem sort_map_pickNumber_eq {raw : List DraftPick} {n : Int}
    (hnd : (raw.map (fun p => p.pickNumber)).Nodup)
    (hsub : ∀ p ∈ raw, p.pickNumber ∈ positionsList n)
    (hlen : raw.length = n.toNat) :
    (sortByPickNumber raw).map (fun p => p.pickNumber) = positionsList n := by
  have hperm : (sortByPickNumber raw).Perm raw := sortByPickNumber_perm raw
  have hmapperm : ((sortByPickNumber raw).map (fun p => p.pickNumber)).Perm
      (raw.map (fun p => p.pickNumber)) := hperm.map _
  apply sorted_nodup_eq_positionsList
  · exact hmapperm.nodup_iff.mpr hnd
  · intro x hx
    rw [List.mem_map] at hx
    obtain ⟨p, hp, rfl⟩ := hx
    exact hsub p (mem_sortByPickNumber.mp hp)
  · rw [List.length_map, length_sortByPickNumber, hlen]
  · rw [List.pairwise_map]
    exact sortByPickNumber_sorted raw

theorem runLotteryRound_pickNumbers {config : DraftConfig} {roundNumber : Int}
    {order : List Int} {shuffles : Nat → List TeamEntry → List TeamEntry}
    {draws : Nat → Nat → ℚ} {picks : List DraftPick}
    (hperm : order.Perm (positionsList config.numberOfTeams))
    (hshuffle : ∀ i l, ((shuffles i) l).Perm l)
    (h : runLotteryRound config roundNumber order shuffles draws = .ok picks) :
    picks.map (fun p => p.pickNumber) = positionsList config.numberOfTeams := by
  have horderlen : order.length = config.numberOfTeams.toNat := by
    rw [hperm.length_eq, length_positionsList]
  rcases runLotteryRound_ok_cases h with ⟨i, ha⟩ | ⟨raw, hf, hs⟩
  · obtain ⟨teams, raw, hb, hp, _, hsort⟩ := attemptRound_ok ha
    obtain ⟨hlen, hprops, hnodup⟩ := processTeams_ok_core hp
    have hteamlen : teams.length = order.length := by
      have := congrArg List.length (buildTeams_ok_shape hb)
      simpa using this
    have hrawlen : raw.length = config.numberOfTeams.toNat := by
      rw [hlen, (hshuffle i teams).length_eq, hteamlen, horderlen]
    rw [hsort]
    exact sort_map_pickNumber_eq hnodup (fun p hp' => (hprops p hp').2.1) hrawlen
  · obtain ⟨hpn, _, _⟩ := fallbackPicksRaw_ok_shape hf
    have hnd : (raw.map (fun p => p.pickNumber)).Nodup := by
      rw [hpn]
      exact hperm.nodup_iff.mpr (nodup_positionsList config.numberOfTeams)
    have hsub : ∀ p ∈ raw, p.pickNumber ∈ positionsList config.numberOfTeams := by
      intro p hp'
      have : p.pickNumber ∈ raw.map (fun p => p.pickNumber) :=
        List.mem_map.mpr ⟨p, hp', rfl⟩
      rw [hpn] at this
      exact hperm.subset this
    have hrawlen : raw.length = config.numberOfTeams.toNat := by
      have := congrArg List.length hpn
      rw [List.length_map] at this
      rw [this, horderlen]
    rw [hs]
    exact sort_map_pickNumber_eq hnd hsub hrawlen

theorem runLotteryRound_length {config : DraftConfig} {roundNumber : Int}
    {order : List Int} {shuffles : Nat → List TeamEntry → List TeamEntry}
    {draws : Nat → Nat → ℚ} {picks : List DraftPick}
    (hshuffle : ∀ i l, ((shuffles i) l).Perm l)
    (h : runLotteryRound config roundNumber order shuffles draws = .ok picks) :
    picks.length = order.length := by
  rcases runLotteryRound_ok_cases h with ⟨i, ha⟩ | ⟨raw, hf, hs⟩
  · obtain ⟨teams, raw, hb, hp, _, hsort⟩ := attemptRound_ok ha
    obtain ⟨hlen, _, _⟩ := processTeams_ok_core hp
    have hteamlen : teams.length = order.length := by
      have := congrArg List.length (buildTeams_ok_shape hb)
      simpa using this
    rw [hsort, length_sortByPickNumber, hlen, (hshuffle i teams).length_eq, hteamlen]
  · obtain ⟨hpn, _, _⟩ := fallbackPicksRaw_ok_shape hf
    have := congrArg List.length hpn
    rw [List.length_map] at this
    rw [hs, length_sortByPickNumber, this]

theorem runLotteryRound_round {config : DraftConfig} {roundNumber : Int}
    {order : List Int} {shuffles : Nat → List TeamEntry → List TeamEntry}
    {draws : Nat → Nat → ℚ} {picks : List DraftPick}
    (h : runLotteryRound config roundNumber order shuffles draws = .ok picks) :
    ∀ p ∈ picks, p.round = roundNumber := by
  intro p hp
  rcases runLotteryRound_ok_cases h with ⟨i, ha⟩ | ⟨raw, hf, hs⟩
  · obtain ⟨teams, raw, _, hpr, _, hsort⟩ := attemptRound_ok ha
    rw [hsort, mem_sortByPickNumber] at hp
    exact ((processTeams_ok_core hpr).2.1 p hp).1
  · rw [hs, mem_sortByPickNumber] at hp
    exact ((fallbackPicksRaw_ok_shape hf).2.2 p hp).2.2

/-! ### Validation and multi-round orchestration -/

theorem validateDraftResults_valid {picks : List DraftPick}
    (h : ∀ p ∈ picks, |p.movement| ≤ MAX_MOVEMENT) :
    (validateDraftResults picks).1 = true := by
  simp only [validateDraftResults, List.isEmpty_iff, List.filterMap_eq_nil_iff]
  intro p hp
  rw [if_neg (not_lt.mpr (h p hp))]

theorem roundLabels_length (len : Nat) : ∀ (round : Int) (n : Nat),
    (roundLabels len round n).length = n * len := by
  intro round n
  induction n generalizing round with
  | zero => simp [roundLabels]
  | succ m ih =>
    simp only [roundLabels, List.length_append, List.length_replicate, ih]
    ring

theorem roundLabels_count (len : Nat) (r : Int) : ∀ (round : Int) (n : Nat),
    (roundLabels len round n).count r =
      if round ≤ r ∧ r < round + (n : Int) then len else 0 := by
  intro round n
  induction n generalizing round with
  | zero =>
    simp only [roundLabels, List.count_nil]
    rw [if_neg (by omega)]
  | succ m ih =>
    simp only [roundLabels, List.count_append, List.count_replicate, ih, beq_iff_eq]
    split_ifs <;> omega

theorem runRounds_ok_rounds {config : DraftConfig} {order : List Int}
    {shuffles : Int → Nat → List TeamEntry → List TeamEntry}
    {draws : Int → Nat → Nat → ℚ}
    (hshuffle : ∀ r i l, ((shuffles r i) l).Perm l) :
    ∀ {fuel : Nat} {round : Int} {picks : List DraftPick},
    runRounds config order shuffles draws round fuel = .ok picks →
    picks.map (fun p => p.round) = roundLabels order.length round fuel := by
  intro fuel
  induction fuel with
  | zero =>
    intro round picks h
    simp only [runRounds, Except.ok.injEq] at h
    subst h
    rfl
  | succ n ih =>
    intro round picks h
    simp only [runRounds] at h
    split at h
    · exact absurd h (by simp)
    · rename_i roundPicks hrp
      split at h
      · split at h
        · exact absurd h (by simp)
        · rename_i rest hrec
          simp only [Except.ok.injEq] at h
          subst h
          rw [List.map_append]
          have h1 : roundPicks.map (fun p => p.round) = List.replicate order.length round := by
            rw [List.eq_replicate_iff]
            refine ⟨by rw [List.length_map]; exact runLotteryRound_length (hshuffle round) hrp, ?_⟩
            intro b hb
            rw [List.mem_map] at hb
            obtain ⟨p, hp, rfl⟩ := hb
            exact runLotteryRound_round hrp p hp
          rw [h1, ih hrec]
          rfl
      · exact absurd h (by simp)

theorem runRounds_total {config : DraftConfig} {order : List Int}
    (shuffles : Int → Nat → List TeamEntry → List TeamEntry)
    (draws : Int → Nat → Nat → ℚ)
    (hvalid : ∀ op ∈ order, 1 ≤ op ∧ (op - 1).toNat < config.teams.length) :
    ∀ (fuel : Nat) (round : Int),
    ∃ picks, runRounds config order shuffles draws round fuel = .ok picks := by
  intro fuel
  induction fuel with
  | zero => intro round; exact ⟨[], rfl⟩
  | succ n ih =>
    intro round
    obtain ⟨roundPicks, hrp⟩ :=
      runLotteryRound_total config round order (shuffles round) (draws round) hvalid
    obtain ⟨rest, hrec⟩ := ih (round + 1)
    refine ⟨roundPicks ++ rest, ?_⟩
    simp only [runRounds, hrp]
    rw [validateDraftResults_valid (runLotteryRound_movement hrp)]
    rw [if_pos rfl, hrec]

/-! ### Facts about `runCompleteLottery` -/

theorem runCompleteLottery_mismatch {config : DraftConfig} {order : List Int}
    {shuffles : Int → Nat → List TeamEntry → List TeamEntry}
    {draws : Int → Nat → Nat → ℚ}
    (h : (order.length : Int) ≠ config.numberOfTeams) :
    runCompleteLottery config order shuffles draws =
      .error ("Initial order length (" ++ toString order.length
        ++ ") must match number of teams (" ++ toString config.numberOfTeams ++ ")") := by
  unfold runCompleteLottery
  rw [if_pos h]

theorem runCompleteLottery_match {config : DraftConfig} {order : List Int}
    {shuffles : Int → Nat → List TeamEntry → List TeamEntry}
    {draws : Int → Nat → Nat → ℚ}
    (h : (order.length : Int) = config.numberOfTeams) :
    runCompleteLottery config order shuffles draws =
      runRounds config order shuffles draws 1 config.numberOfRounds.toNat := by
  unfold runCompleteLottery
  rw [if_neg (by simp [h])]

theorem mismatch_message_contains (len : Nat) (nTeams : Int) :
    strContains ("Initial order length (" ++ toString len
        ++ ") must match number of teams (" ++ toString nTeams ++ ")") (toString len) ∧
    strContains ("Initial order length (" ++ toString len
        ++ ") must match number of teams (" ++ toString nTeams ++ ")") (toString nTeams) := by
  constructor
  · refine ⟨"Initial order length (",
      ") must match number of teams (" ++ toString nTeams ++ ")", ?_⟩
    simp [String.append_assoc]
  · refine ⟨"Initial order length (" ++ toString len ++ ") must match number of teams (",
      ")", ?_⟩
    simp [String.append_assoc]

theorem runRounds_movement {config : DraftConfig} {order : List Int}
    {shuffles : Int → Nat → List TeamEntry → List TeamEntry}
    {draws : Int → Nat → Nat → ℚ} :
    ∀ {fuel : Nat} {round : Int} {picks : List DraftPick},
    runRounds config order shuffles draws round fuel = .ok picks →
    ∀ p ∈ picks, |p.movement| ≤ MAX_MOVEMENT := by
  intro fuel
  induction fuel with
  | zero =>
    intro round picks h p hp
    simp only [runRounds, Except.ok.injEq] at h
    subst h
    simp at hp
  | succ n ih =>
    intro round picks h p hp
    simp only [runRounds] at h
    split at h
    · exact absurd h (by simp)
    · rename_i roundPicks hrp
      split at h
      · split at h
        · exact absurd h (by simp)
        · rename_i rest hrec
          simp only [Except.ok.injEq] at h
          subst h
          rcases List.mem_append.mp hp with h' | h'
          · exact runLotteryRound_movement hrp p h'
          · exact ih hrec p h'
      · exact absurd h (by simp)

theorem runCompleteLottery_movement {config : DraftConfig} {order : List Int}
    {shufflesAll : Int → Nat → List TeamEntry → List TeamEntry}
    {drawsAll : Int → Nat → Nat → ℚ} {picks : List DraftPick}
    (h : runCompleteLottery config order shufflesAll drawsAll = .ok picks) :
    ∀ p ∈ picks, |p.movement| ≤ MAX_MOVEMENT := by
  unfold runCompleteLottery at h
  split at h
  · exact absurd h (by simp)
  · exact runRounds_movement h

/-- C8: `getValidPositionRange p N` is the closed interval
`[max(1, p − 2), min(N, p + 2)]`; in particular for `N = 10`, `p = 1` gives
`[1, 3]`, `p = 5` gives `[3, 7]` and `p = 10` gives `[8, 10]`; the function
is pure and total. -/
theorem claim_C8 (p N : Int) :
    getValidPositionRange p N = (max 1 (p - 2), min N (p + 2)) ∧
    getValidPositionRange 1 10 = (1, 3) ∧
    getValidPositionRange 5 10 = (3, 7) ∧
    getValidPositionRange 10 10 = (8, 10) := by
  refine ⟨rfl, ?_, ?_, ?_⟩ <;> decide

/-- C2: every pick returned by `runLotteryRound`, and hence by
`runCompleteLottery`, satisfies `|movement| ≤ 2`, for every configuration
and initial order on which they return normally. -/
theorem claim_C2 (config : DraftConfig) (roundNumber : Int) (order : List Int)
    (shuffles : Nat → List TeamEntry → List TeamEntry) (draws : Nat → Nat → ℚ)
    (shufflesAll : Int → Nat → List TeamEntry → List TeamEntry)
    (drawsAll : Int → Nat → Nat → ℚ) :
    (∀ picks, runLotteryRound config roundNumber order shuffles draws = .ok picks →
      ∀ p ∈ picks, |p.movement| ≤ 2) ∧
    (∀ picks, runCompleteLottery config order shufflesAll drawsAll = .ok picks →
      ∀ p ∈ picks, |p.movement| ≤ 2) :=
  ⟨fun _ h p hp => runLotteryRound_movement h p hp,
   fun _ h p hp => runCompleteLottery_movement h p hp⟩

theorem claim_C2_witness :
    (∀ p ∈ ([⟨1, 1, "t1", 1, 0⟩] : List DraftPick), |p.movement| ≤ 2) ∧
    (∀ p ∈ ([⟨1, 1, "t1", 1, 0⟩, ⟨2, 1, "t1", 1, 0⟩] : List DraftPick), |p.movement| ≤ 2) :=
  ⟨(claim_C2 oneTeamConfig 1 [1] idShuffles zeroDraws idShufflesAll zeroDrawsAll).1 _ rfl,
   (claim_C2 oneTeamConfig 1 [1] idShuffles zeroDraws idShufflesAll zeroDrawsAll).2 _ rfl⟩

/-- C1: for every well-formed configuration and every initial order that is
a permutation of `1..N`, a normally returned round has pick numbers that are
exactly `1, 2, ..., N` in order (a sorted permutation of `1..N`). -/
theorem claim_C1 (config : DraftConfig) (roundNumber : Int) (order : List Int)
    (shuffles : Nat → List TeamEntry → List TeamEntry) (draws : Nat → Nat → ℚ)
    (picks : List DraftPick)
    (hwf : WellFormedConfig config)
    (hperm : order.Perm (positionsList config.numberOfTeams))
    (hshuffle : ∀ i l, ((shuffles i) l).Perm l)
    (h : runLotteryRound config roundNumber order shuffles draws = .ok picks) :
    picks.map (fun p => p.pickNumber) = positionsList config.numberOfTeams :=
  runLotteryRound_pickNumbers hperm hshuffle h

theorem claim_C1_witness :
    ([⟨1, 1, "t1", 1, 0⟩] : List DraftPick).map (fun p => p.pickNumber) =
      positionsList oneTeamConfig.numberOfTeams :=
  claim_C1 oneTeamConfig 1 [1] idShuffles zeroDraws [⟨1, 1, "t1", 1, 0⟩]
    (by decide) (List.Perm.refl _) (fun _ l => List.Perm.refl l) rfl

/-- C6: when every one of the `MAX_ATTEMPTS` attempts fails, `runLotteryRound`
returns the identity assignment — one pick per entry of the initial order,
`pickNumber = originalPosition`, `movement = 0`, sorted ascending — so a
round is never left unresolved. -/
theorem claim_C6 (config : DraftConfig) (roundNumber : Int) (order : List Int)
    (shuffles : Nat → List TeamEntry → List TeamEntry) (draws : Nat → Nat → ℚ)
    (hfail : ∀ i, i < MAX_ATTEMPTS →
      attemptRound config roundNumber order (shuffles i) (draws i) = none)
    (hvalid : ∀ op ∈ order, 1 ≤ op ∧ (op - 1).toNat < config.teams.length) :
    ∃ picks, runLotteryRound config roundNumber order shuffles draws = .ok picks ∧
      (picks.map (fun p => p.originalPosition)).Perm order ∧
      (∀ p ∈ picks, p.pickNumber = p.originalPosition ∧ p.movement = 0) ∧
      (picks.map (fun p => p.pickNumber)).Pairwise (· ≤ ·) := by
  have ht : tryAttempts config roundNumber order shuffles draws 0 MAX_ATTEMPTS = none :=
    tryAttempts_none (fun i h1 h2 => hfail i (by omega))
  obtain ⟨raw, hf⟩ := @fallbackPicksRaw_total config.teams roundNumber order hvalid
  obtain ⟨hpn, hop, hprops⟩ := fallbackPicksRaw_ok_shape hf
  refine ⟨sortByPickNumber raw, ?_, ?_, ?_, ?_⟩
  · simp only [runLotteryRound, ht, hf]
  · have hp : ((sortByPickNumber raw).map (fun p => p.originalPosition)).Perm
        (raw.map (fun p => p.originalPosition)) := (sortByPickNumber_perm raw).map _
    rw [hop] at hp
    exact hp
  · intro p hp
    have h3 := hprops p (mem_sortByPickNumber.mp hp)
    exact ⟨h3.1, h3.2.1⟩
  · rw [List.pairwise_map]
    exact sortByPickNumber_sorted raw

theorem claim_C6_witness :
    ∃ picks, runLotteryRound noOddsConfig 1 [1] idShuffles zeroDraws = .ok picks ∧
      (picks.map (fun p => p.originalPosition)).Perm [1] ∧
      (∀ p ∈ picks, p.pickNumber = p.originalPosition ∧ p.movement = 0) ∧
      (picks.map (fun p => p.pickNumber)).Pairwise (· ≤ ·) :=
  claim_C6 noOddsConfig 1 [1] idShuffles zeroDraws (fun _ _ => rfl) (by decide)

/-- C9: when the admissible-and-available candidate set is a singleton `{x}`,
`weightedRandomSelection` returns `x` regardless of the random draw. -/
theorem claim_C9 (a : List Int) (ws : List WeightedOdds) (op x : Int)
    (h : admissibleCandidates a ws op = [x]) :
    ∀ draw, weightedRandomSelection a ws op draw = .ok x := by
  intro draw
  unfold weightedRandomSelection
  rw [h]

theorem claim_C9_witness :
    weightedRandomSelection [4] sixOdds 4 0 = .ok 4 ∧
    weightedRandomSelection [4] sixOdds 4 (9 / 10) = .ok 4 :=
  ⟨claim_C9 [4] sixOdds 4 4 rfl 0, claim_C9 [4] sixOdds 4 4 rfl (9 / 10)⟩

/-- C10: `weightedRandomSelection` computes its admissibility window with
`weightedSystem.length` as the team count: a returned position always lies
in `[max(1, op − 2), min(weightedSystem.length, op + 2)]`, so an available
position above `min(weightedSystem.length, op + 2)` is never returned. -/
theorem claim_C10 (a : List Int) (ws : List WeightedOdds) (op : Int) (d : ℚ) (x : Int)
    (h : weightedRandomSelection a ws op d = .ok x) :
    (∀ c : Int, c ∈ admissibleCandidates a ws op ↔
      (c ∈ a ∧ max 1 (op - 2) ≤ c ∧ c ≤ min (ws.length : Int) (op + 2))) ∧
    (x ∈ a ∧ max 1 (op - 2) ≤ x ∧ x ≤ min (ws.length : Int) (op + 2)) ∧
    (∀ y ∈ a, min (ws.length : Int) (op + 2) < y →
      weightedRandomSelection a ws op d ≠ .ok y) := by
  refine ⟨?_, mem_admissibleCandidates (weightedRandomSelection_ok_mem h), ?_⟩
  · intro c
    simp only [admissibleCandidates, getValidPositionRange, MAX_MOVEMENT, List.mem_filter,
      decide_eq_true_eq]
  · intro y _ hy hok
    have h2 := (mem_admissibleCandidates (weightedRandomSelection_ok_mem hok)).2.2
    omega

theorem claim_C10_witness :
    ((∀ c : Int, c ∈ admissibleCandidates [3, 5] threeOdds 3 ↔
       (c ∈ ([3, 5] : List Int) ∧ max 1 ((3 : Int) - 2) ≤ c ∧
        c ≤ min ((threeOdds.length : Int)) (3 + 2))) ∧
     (3 ∈ ([3, 5] : List Int) ∧ max 1 ((3 : Int) - 2) ≤ 3 ∧
      (3 : Int) ≤ min ((threeOdds.length : Int)) (3 + 2)) ∧
     (∀ y ∈ ([3, 5] : List Int), min ((threeOdds.length : Int)) (3 + 2) < y →
       weightedRandomSelection [3, 5] threeOdds 3 0 ≠ .ok y)) ∧
    ((getValidPositionRange 3 5).1 ≤ 5 ∧ (5 : Int) ≤ (getValidPositionRange 3 5).2) :=
  ⟨claim_C10 [3, 5] threeOdds 3 0 3 rfl, by decide⟩

set_option maxRecDepth 100000 in
/-- C3 counterexample: with a well-formed one-team configuration and the
length-matching initial order `[0]`, `runCompleteLottery` still throws (the
out-of-range team lookup of the fallback path escapes), refuting totality
for every length-matching initial order. -/
theorem claim_C3_counterexample :
    (([0] : List Int).length : Int) = oneTeamConfig.numberOfTeams ∧
    runCompleteLottery oneTeamConfig [0] idShufflesAll zeroDrawsAll =
      .error "TypeError: Cannot read properties of undefined (reading id)" :=
  ⟨rfl, rfl⟩

/-- C3 (amended): provided every entry of the initial order is a valid team
index (`1 ≤ op ≤ teams.length`), `runCompleteLottery` fails exactly when
`initialOrder.length ≠ numberOfTeams`, the mismatch message contains both
numbers, and on equal lengths it returns a pick list. -/
theorem claim_C3_amended (config : DraftConfig) (order : List Int)
    (shufflesAll : Int → Nat → List TeamEntry → List TeamEntry)
    (drawsAll : Int → Nat → Nat → ℚ) :
    ((order.length : Int) ≠ config.numberOfTeams →
      ∃ msg, runCompleteLottery config order shufflesAll drawsAll = .error msg ∧
        strContains msg (toString order.length) ∧
        strContains msg (toString config.numberOfTeams)) ∧
    ((order.length : Int) = config.numberOfTeams →
      (∀ op ∈ order, 1 ≤ op ∧ (op - 1).toNat < config.teams.length) →
      ∃ picks, runCompleteLottery config order shufflesAll drawsAll = .ok picks) := by
  constructor
  · intro hne
    obtain ⟨hc1, hc2⟩ := mismatch_message_contains order.length config.numberOfTeams
    exact ⟨_, runCompleteLottery_mismatch hne, hc1, hc2⟩
  · intro heq hvalid
    rw [runCompleteLottery_match heq]
    exact runRounds_total shufflesAll drawsAll hvalid _ _

theorem claim_C3_amended_witness :
    (∃ msg, runCompleteLottery oneTeamConfig [1, 2] idShufflesAll zeroDrawsAll = .error msg ∧
      strContains msg (toString ([1, 2] : List Int).length) ∧
      strContains msg (toString oneTeamConfig.numberOfTeams)) ∧
    (∃ picks, runCompleteLottery oneTeamConfig [1] idShufflesAll zeroDrawsAll = .ok picks) :=
  ⟨(claim_C3_amended oneTeamConfig [1, 2] idShufflesAll zeroDrawsAll).1 (by decide),
   (claim_C3_amended oneTeamConfig [1] idShufflesAll zeroDrawsAll).2 (by decide) (by decide)⟩

/-- C7: for a well-formed configuration with `N` teams and `R` rounds and an
initial order that is a permutation of `1..N`, `runCompleteLottery` returns
`N·R` picks, labelled round `1` through `R` in order with exactly `N` picks
per round and no other round numbers. -/
theorem claim_C7 (config : DraftConfig) (order : List Int)
    (shufflesAll : Int → Nat → List TeamEntry → List TeamEntry)
    (drawsAll : Int → Nat → Nat → ℚ) (picks : List DraftPick)
    (hwf : WellFormedConfig config)
    (hperm : order.Perm (positionsList config.numberOfTeams))
    (hshuffle : ∀ r i l, ((shufflesAll r i) l).Perm l)
    (h : runCompleteLottery config order shufflesAll drawsAll = .ok picks) :
    picks.length = config.numberOfTeams.toNat * config.numberOfRounds.toNat ∧
    picks.map (fun p => p.round) =
      roundLabels config.numberOfTeams.toNat 1 config.numberOfRounds.toNat ∧
    ∀ r : Int, (picks.map (fun p => p.round)).count r =
      if 1 ≤ r ∧ r ≤ config.numberOfRounds then config.numberOfTeams.toNat else 0 := by
  have hlen : order.length = config.numberOfTeams.toNat := by
    rw [hperm.length_eq, length_positionsList]
  have hlenInt : (order.length : Int) = config.numberOfTeams := by
    have h1 := hwf.1
    omega
  rw [runCompleteLottery_match hlenInt] at h
  have hmap := runRounds_ok_rounds hshuffle h
  rw [hlen] at hmap
  refine ⟨?_, hmap, ?_⟩
  · have h2 := congrArg List.length hmap
    rw [List.length_map, roundLabels_length] at h2
    rw [h2, Nat.mul_comm]
  · intro r
    rw [hmap, roundLabels_count]
    have hiff : (1 ≤ r ∧ r < 1 + (config.numberOfRounds.toNat : Int)) ↔
        (1 ≤ r ∧ r ≤ config.numberOfRounds) := by omega
    rw [if_congr hiff rfl rfl]

theorem claim_C7_witness :
    ([⟨1, 1, "t1", 1, 0⟩, ⟨2, 1, "t1", 1, 0⟩] : List DraftPick).length =
        oneTeamConfig.numberOfTeams.toNat * oneTeamConfig.numberOfRounds.toNat ∧
    ([⟨1, 1, "t1", 1, 0⟩, ⟨2, 1, "t1", 1, 0⟩] : List DraftPick).map (fun p => p.round) =
        roundLabels oneTeamConfig.numberOfTeams.toNat 1 oneTeamConfig.numberOfRounds.toNat ∧
    ∀ r : Int,
      (([⟨1, 1, "t1", 1, 0⟩, ⟨2, 1, "t1", 1, 0⟩] : List DraftPick).map (fun p => p.round)).count r =
        if 1 ≤ r ∧ r ≤ oneTeamConfig.numberOfRounds then oneTeamConfig.numberOfTeams.toNat else 0 :=
  claim_C7 oneTeamConfig [1] idShufflesAll zeroDrawsAll _ (by decide) (List.Perm.refl _)
    (fun _ _ l => List.Perm.refl l) rfl

/-- C4 counterexample: with a singleton admissible set and an odds table
lacking an entry for the original position, `weightedRandomSelection`
returns normally instead of failing, refuting the claimed equivalence. -/
theorem claim_C4_counterexample :
    weightedRandomSelection [1] [⟨2, 5⟩] 1 0 = .ok 1 ∧
    ∀ o ∈ ([⟨2, 5⟩] : List WeightedOdds), o.position ≠ 1 :=
  ⟨rfl, by decide⟩

/-- C4 (amended): `weightedRandomSelection` fails exactly when the
admissible-and-available set is empty, or when it has at least two elements
and the odds table has no entry for the original position. -/
theorem claim_C4_amended (a : List Int) (ws : List WeightedOdds) (op : Int) (d : ℚ) :
    (∃ e, weightedRandomSelection a ws op d = .error e) ↔
      (admissibleCandidates a ws op = [] ∨
        (2 ≤ (admissibleCandidates a ws op).length ∧
          ws.find? (fun odds => odds.position == op) = none)) := by
  unfold weightedRandomSelection
  cases hc : admissibleCandidates a ws op with
  | nil => simp
  | cons x tl =>
    cases tl with
    | nil => simp
    | cons y rest =>
      cases hf : ws.find? (fun odds => odds.position == op) with
      | none => simp
      | some odds => simp

theorem adjustedWeight_eq_spec (pct : ℚ) (op c : Int) :
    adjustedWeight pct op c = specRawWeight pct op c := by
  unfold adjustedWeight specRawWeight
  rcases lt_trichotomy c op with h | h | h
  · rw [if_pos (by omega : op - c > 0), if_pos h]
    ring
  · subst h
    rw [if_neg (by omega), if_neg (by omega), if_neg (by omega), if_neg (by omega)]
  · rw [if_neg (by omega), if_pos (by omega : op - c < 0), if_neg (by omega), if_pos h]
    have hlt : (op - c : Int) < 0 := by omega
    rw [Int.cast_natAbs, abs_of_neg hlt]
    push_cast
    ring

theorem adjustedWeight_pos {pct : ℚ} {op c : Int} (hpos : 0 < pct)
    (h1 : op - 2 ≤ c) (h2 : c ≤ op + 2) : 0 < adjustedWeight pct op c := by
  unfold adjustedWeight
  dsimp only
  split_ifs with hm1 hm2
  · apply mul_pos hpos
    have hm : (0 : ℚ) ≤ ((op - c : Int) : ℚ) := by exact_mod_cast le_of_lt hm1
    have h02 : (0 : ℚ) ≤ 0.2 := by norm_num
    nlinarith
  · apply mul_pos hpos
    have hna : ((op - c).natAbs : ℚ) ≤ 2 := by
      have hn : (op - c).natAbs ≤ 2 := by omega
      exact_mod_cast hn
    have hge : (0 : ℚ) ≤ ((op - c).natAbs : ℚ) := by positivity
    nlinarith
  · exact hpos

theorem sum_map_div (l : List Int) (f : Int → ℚ) (t : ℚ) :
    (l.map (fun c => f c / t)).sum = (l.map f).sum / t := by
  induction l with
  | nil => simp
  | cons a l ih => simp [ih, add_div]

theorem normalized_sum_one {cands : List Int} {pct : ℚ} {op : Int}
    (hne : cands ≠ []) (hpos : 0 < pct)
    (hbound : ∀ c ∈ cands, op - 2 ≤ c ∧ c ≤ op + 2) :
    (cands.map (fun c => adjustedWeight pct op c /
      (cands.map (fun c' => adjustedWeight pct op c')).sum)).sum = 1 := by
  have hTpos : 0 < (cands.map (fun c' => adjustedWeight pct op c')).sum := by
    apply List.sum_pos
    · intro w hw
      rw [List.mem_map] at hw
      obtain ⟨c, hc, rfl⟩ := hw
      exact adjustedWeight_pos hpos (hbound c hc).1 (hbound c hc).2
    · simp [hne]
  rw [sum_map_div, div_self (ne_of_gt hTpos)]

theorem walkFrom_eq_find (probs : List (Int × ℚ)) (draw : ℚ) (fb : Int) :
    ∀ acc : ℚ, walkFrom probs draw acc fb =
      match (List.range probs.length).find? (fun i =>
          decide (draw ≤ acc + ((probs.take (i + 1)).map Prod.snd).sum)) with
      | some i => (probs.getD i (0, 0)).1
      | none => fb := by
  induction probs with
  | nil => intro acc; rfl
  | cons p rest ih =>
    intro acc
    have hcond : ((fun i => decide (draw ≤ acc +
        (((p :: rest).take (i + 1)).map Prod.snd).sum)) ∘ Nat.succ) =
        (fun i => decide (draw ≤ (acc + p.2) + ((rest.take (i + 1)).map Prod.snd).sum)) := by
      funext i
      simp only [Function.comp, List.take_succ_cons, List.map_cons, List.sum_cons]
      exact decide_eq_decide.mpr (by constructor <;> intro h <;> linarith)
    simp only [List.length_cons, List.range_succ_eq_map, List.find?_cons]
    by_cases hd : draw ≤ acc + p.2
    · have hc0 : (decide (draw ≤ acc + (((p :: rest).take (0 + 1)).map Prod.snd).sum)) = true := by
        simp [hd]
      rw [walkFrom, if_pos hd, hc0]
      simp
    · have hc0 : (decide (draw ≤ acc + (((p :: rest).take (0 + 1)).map Prod.snd).sum)) = false := by
        simp [hd]
      rw [walkFrom, if_neg hd, hc0, List.find?_map, hcond, ih (acc + p.2)]
      cases hfind : List.find? (fun i =>
          decide (draw ≤ acc + p.2 + ((rest.take (i + 1)).map Prod.snd).sum))
          (List.range rest.length) with
      | none => rfl
      | some i => simp

theorem foldl_add_snd : ∀ (l : List (Int × ℚ)) (init : ℚ),
    l.foldl (fun sum p => sum + p.2) init = init + (l.map Prod.snd).sum := by
  intro l
  induction l with
  | nil => intro init; simp
  | cons a rest ih =>
    intro init
    simp only [List.foldl_cons, List.map_cons, List.sum_cons, ih (init + a.2)]
    ring

theorem map_pair_getD_fst (f : Int → ℚ) : ∀ (l : List Int) (i : Nat),
    ((l.map (fun c => (c, f c))).getD i (0, 0)).1 = l.getD i 0 := by
  intro l
  induction l with
  | nil => intro i; rfl
  | cons a rest ih =>
    intro i
    cases i with
    | zero => rfl
    | succ j => simp only [List.map_cons, List.getD_cons_succ, ih]

theorem weightedPick_eq_specSelect (cands : List Int) (pct : ℚ) (op : Int) (d : ℚ) :
    weightedPick cands pct op d = specSelect cands pct op d := by
  have htot : (cands.map (fun pos => (pos, adjustedWeight pct op pos))).foldl
      (fun sum p => sum + p.2) 0 = (cands.map (fun c => specRawWeight pct op c)).sum := by
    rw [foldl_add_snd, zero_add, List.map_map]
    have hfun : (Prod.snd ∘ fun pos : Int => (pos, adjustedWeight pct op pos)) =
        (fun c => specRawWeight pct op c) := funext fun c => adjustedWeight_eq_spec pct op c
    rw [hfun]
  have hnorm : (cands.map (fun pos => (pos, adjustedWeight pct op pos))).map
      (fun p => (p.1, p.2 / (cands.map (fun pos => (pos, adjustedWeight pct op pos))).foldl
        (fun sum p => sum + p.2) 0)) =
      cands.map (fun c => (c, specRawWeight pct op c /
        (cands.map (fun c' => specRawWeight pct op c')).sum)) := by
    rw [htot, List.map_map]
    have hfun : ((fun p : Int × ℚ => (p.1, p.2 /
        (cands.map (fun c' => specRawWeight pct op c')).sum)) ∘
        (fun pos : Int => (pos, adjustedWeight pct op pos))) =
        (fun c : Int => (c, specRawWeight pct op c /
          (cands.map (fun c' => specRawWeight pct op c')).sum)) :=
      funext fun c => congrArg
        (fun w => ((c : Int), w / (cands.map (fun c' => specRawWeight pct op c')).sum))
        (adjustedWeight_eq_spec pct op c)
    rw [hfun]
  unfold weightedPick specSelect
  dsimp only
  rw [hnorm, walkFrom_eq_find]
  simp only [List.length_map, zero_add, ← List.map_take, List.map_map]
  rw [show (Prod.snd ∘ (fun c : Int => (c, specRawWeight pct op c /
      (cands.map (fun c' => specRawWeight pct op c')).sum))) =
      (fun c : Int => specRawWeight pct op c /
        (cands.map (fun c' => specRawWeight pct op c')).sum) from rfl]
  cases hfind : (List.range cands.length).find? (fun i =>
      decide (d ≤ ((cands.take (i + 1)).map (fun c => specRawWeight pct op c /
        (cands.map (fun c' => specRawWeight pct op c')).sum)).sum)) with
  | none => rfl
  | some i => exact map_pair_getD_fst _ cands i

/-- C5: with at least two candidates and an odds entry with positive base
percentage, each candidate's weight is the base percentage adjusted
multiplicatively by `±0.2` per position of movement, the normalized weights
sum to `1`, and the returned position is the first candidate, in enumeration
order, whose cumulative normalized weight reaches the draw, with the first
candidate as fallback (`specSelect`). -/
theorem claim_C5 (a : List Int) (ws : List WeightedOdds) (op : Int) (d : ℚ)
    (x y : Int) (rest : List Int) (teamOdds : WeightedOdds)
    (hc : admissibleCandidates a ws op = x :: y :: rest)
    (hf : ws.find? (fun odds => odds.position == op) = some teamOdds)
    (hpos : 0 < teamOdds.percentage) :
    (∀ c ∈ admissibleCandidates a ws op,
      adjustedWeight teamOdds.percentage op c = specRawWeight teamOdds.percentage op c) ∧
    ((admissibleCandidates a ws op).map (fun c =>
      adjustedWeight teamOdds.percentage op c /
        ((admissibleCandidates a ws op).map
          (fun c' => adjustedWeight teamOdds.percentage op c')).sum)).sum = 1 ∧
    weightedRandomSelection a ws op d =
      .ok (specSelect (admissibleCandidates a ws op) teamOdds.percentage op d) := by
  refine ⟨fun c _ => adjustedWeight_eq_spec _ op c, ?_, ?_⟩
  · apply normalized_sum_one (by rw [hc]; simp) hpos
    intro c hcmem
    have h3 := mem_admissibleCandidates hcmem
    exact ⟨le_trans (le_max_right 1 (op - 2)) h3.2.1,
      le_trans h3.2.2 (min_le_right _ (op + 2))⟩
  · unfold weightedRandomSelection
    rw [hc, hf]
    show Except.ok (weightedPick (x :: y :: rest) teamOdds.percentage op d) = _
    rw [weightedPick_eq_specSelect]

theorem claim_C5_witness :
    (∀ c ∈ admissibleCandidates [3, 4, 5] sixOdds 4,
      adjustedWeight (10 : ℚ) 4 c = specRawWeight (10 : ℚ) 4 c) ∧
    ((admissibleCandidates [3, 4, 5] sixOdds 4).map (fun c =>
      adjustedWeight (10 : ℚ) 4 c /
        ((admissibleCandidates [3, 4, 5] sixOdds 4).map
          (fun c' => adjustedWeight (10 : ℚ) 4 c')).sum)).sum = 1 ∧
    weightedRandomSelection [3, 4, 5] sixOdds 4 (1 / 2) =
      .ok (specSelect (admissibleCandidates [3, 4, 5] sixOdds 4) (10 : ℚ) 4 (1 / 2)) :=
  claim_C5 [3, 4, 5] sixOdds 4 (1 / 2) 3 4 [5] ⟨4, 10⟩ rfl rfl (by decide)
